import Mathlib

/-!
Verification of the DocForge document model: permission evaluation,
mention-driven auto-sharing, collaborator management, versioning, and the
document lifecycle routes.

The definitions below are a shallow embedding of
`src/server/models/Document.js` (the Mongoose document schema, its pre-save
versioning hook and instance methods) together with the document routes
(`router.post('/')`, `router.put('/:id')`, `router.delete('/:id')`, and the
collaborator routes).  User ids (Mongo ObjectIds compared via `toString()`)
are modelled as `Nat`; timestamps (`Date.now`) are modelled as a `Nat`
parameter `now` supplied by the caller.
-/

namespace DocForge

/-- A user id (an ObjectId in the source; comparisons there go through
`toString()`, i.e. plain value equality). -/
abbrev UserId := Nat

/-- The `role` field of a user: `'user'` or `'admin'`. -/
inductive Role
  | user
  | admin
deriving DecidableEq, Repr

/-- Permission level strings `'view' | 'edit' | 'admin'` of
`permissionSchema.permission`. -/
inductive PermLevel
  | view
  | edit
  | admin
deriving DecidableEq, Repr

/-- The `permissionLevels` map `{ view: 1, edit: 2, admin: 3 }` used by
`hasPermission`. -/
def permissionLevels : PermLevel → Nat
  | .view => 1
  | .edit => 2
  | .admin => 3

/-- One entry of `permissionSchema`: `{ user, permission, grantedBy, grantedAt }`. -/
structure PermissionEntry where
  user : UserId
  permission : PermLevel
  grantedBy : UserId
  grantedAt : Nat
deriving DecidableEq, Repr

/-- One entry of `versionSchema`:
`{ content, title, versionNumber, createdBy, createdAt }` (the optional
`changeDescription` defaults to `''` and is never set by the routes, so it is
omitted). -/
structure VersionEntry where
  content : String
  title : String
  versionNumber : Nat
  createdBy : UserId
  createdAt : Nat
deriving DecidableEq, Repr

/-- One entry of the `mentions` array: `{ user, mentionedAt }`. -/
structure MentionEntry where
  user : UserId
  mentionedAt : Nat
deriving DecidableEq, Repr

/-- The `status` enum `'draft' | 'published' | 'archived'`. -/
inductive DocStatus
  | draft
  | published
  | archived
deriving DecidableEq, Repr

/-- The `privacy` enum: `pub` stands for `'public'`, `priv` for `'private'`
(the source strings are Lean keywords). -/
inductive Privacy
  | pub
  | priv
deriving DecidableEq, Repr

/-- The document schema `documentSchema` (persisted fields used by the routes;
the Mongoose `timestamps` bookkeeping fields are omitted). -/
structure Document where
  title : String
  content : String
  author : UserId
  status : DocStatus
  privacy : Privacy
  permissions : List PermissionEntry
  versions : List VersionEntry
  currentVersion : Nat
  tags : List String
  mentions : List MentionEntry
  collaborators : List UserId
  lastModifiedBy : Option UserId
  isDeleted : Bool
deriving DecidableEq, Repr

/-- `documentSchema.methods.hasPermission(userId, requiredPermission)`:
public documents are viewable by everyone; the author has all permissions;
otherwise the first permission entry for `userId` (via `Array.find`) decides
by comparing mapped levels. -/
def hasPermission (doc : Document) (userId : UserId) (requiredPermission : PermLevel) : Bool :=
  if doc.privacy = Privacy.pub ∧ requiredPermission = PermLevel.view then
    true
  else if doc.author = userId then
    true
  else
    match doc.permissions.find? (fun p => p.user = userId) with
    | none => false
    | some p => permissionLevels p.permission ≥ permissionLevels requiredPermission

/-- Helper for `addCollaborator`: the source mutates the entry returned by
`this.permissions.find(...)` in place, i.e. it rewrites the first entry whose
`user` matches, leaving the rest untouched. -/
def updateFirst (l : List PermissionEntry) (userId : UserId) (permission : PermLevel)
    (grantedBy : UserId) (now : Nat) : List PermissionEntry :=
  match l with
  | [] => []
  | p :: rest =>
    if p.user = userId then
      { p with permission := permission, grantedBy := grantedBy, grantedAt := now } :: rest
    else
      p :: updateFirst rest userId permission grantedBy now

/-- The permissions half of `addCollaborator`: update the existing entry for
`userId` in place if one exists, otherwise push a new entry. -/
def upsertPermission (l : List PermissionEntry) (userId : UserId) (permission : PermLevel)
    (grantedBy : UserId) (now : Nat) : List PermissionEntry :=
  if (l.find? (fun p => p.user = userId)).isSome then
    updateFirst l userId permission grantedBy now
  else
    l ++ [⟨userId, permission, grantedBy, now⟩]

/-- The collaborators half of `addCollaborator`:
`if (!this.collaborators.includes(userId)) this.collaborators.push(userId)`. -/
def pushUnique (l : List UserId) (u : UserId) : List UserId :=
  if l.contains u then l else l ++ [u]

/-- `documentSchema.methods.addCollaborator(userId, permission, grantedBy)`:
upsert the permission entry, then append `userId` to `collaborators` unless
already present.  The two fields are independent, so the sequential mutation
of the source is expressed as a simultaneous record update. -/
def addCollaborator (doc : Document) (userId : UserId) (permission : PermLevel)
    (grantedBy : UserId) (now : Nat) : Document :=
  { doc with
    permissions := upsertPermission doc.permissions userId permission grantedBy now,
    collaborators := pushUnique doc.collaborators userId }

/-- `documentSchema.methods.removeCollaborator(userId)`: filter the entry out
of `permissions` and the id out of `collaborators`. -/
def removeCollaborator (doc : Document) (userId : UserId) : Document :=
  { doc with
    permissions := doc.permissions.filter (fun p => ¬ p.user = userId),
    collaborators := doc.collaborators.filter (fun c => ¬ c = userId) }

/-- The mentions half of `addMention`: push `{ user, mentionedAt }` unless an
entry for `userId` already exists. -/
def pushMention (l : List MentionEntry) (userId : UserId) (now : Nat) : List MentionEntry :=
  if (l.find? (fun m => m.user = userId)).isSome then l else l ++ [⟨userId, now⟩]

/-- `documentSchema.methods.addMention(userId)`. -/
def addMention (doc : Document) (userId : UserId) (now : Nat) : Document :=
  { doc with mentions := pushMention doc.mentions userId now }

/-- The `documentSchema.pre('save')` hook: when the title or content is
dirty, push a version entry built from the document's in-memory (already
assigned) `content`/`title`, numbered `currentVersion + 1`, attributed to
`lastModifiedBy || author`, and advance `currentVersion`.  The boolean
argument stands for `this.isModified('content') || this.isModified('title')`,
which the callers below compute from Mongoose's change tracking. -/
def preSave (doc : Document) (titleOrContentModified : Bool) (now : Nat) : Document :=
  if titleOrContentModified then
    { doc with
      versions := doc.versions ++
        [⟨doc.content, doc.title, doc.currentVersion + 1, doc.lastModifiedBy.getD doc.author, now⟩],
      currentVersion := doc.currentVersion + 1 }
  else
    doc

/-- The per-user body of the mention loop in `router.put('/:id')`:
`document.addMention(userId); document.addCollaborator(userId, 'view', req.user.id)`. -/
def mentionStep (actor : UserId) (now : Nat) (doc : Document) (u : UserId) : Document :=
  addCollaborator (addMention doc u now) u PermLevel.view actor now

/-- Errors surfaced by the document routes that the claims mention:
`404 Document not found` and `403 Access denied`. -/
inductive DocError
  | notFound
  | forbidden
deriving DecidableEq, Repr

/-- `router.post('/')` (create document).  `resolvedMentions` is the list of
user ids produced by the `@(\w+)` scan over `content` with one `User.findOne`
lookup per token occurrence (so the same id may occur several times);
resolution itself hits the identity store and is taken as an input here.
`Document.create` saves a brand-new document, on which Mongoose marks every
assigned path as modified, so the pre-save hook fires; the second
`document.save()` sees no title/content change, so it does not. -/
def createDocument (actor : UserId) (title content : String) (privacy : Privacy)
    (status : DocStatus) (tags : List String) (resolvedMentions : List UserId)
    (now : Nat) : Document :=
  let doc : Document :=
    { title := title, content := content, author := actor, status := status,
      privacy := privacy, permissions := [], versions := [], currentVersion := 1,
      tags := tags, mentions := [], collaborators := [],
      lastModifiedBy := some actor, isDeleted := false }
  let doc := preSave doc true now
  let doc := resolvedMentions.foldl (fun d u => addMention d u now) doc
  let doc := resolvedMentions.foldl
    (fun d u => addCollaborator d u PermLevel.view actor now) doc
  preSave doc false now

/-- The mention stage of `router.put('/:id')`: when `content` is present in
the request, the `@(\w+)` scan runs over the NEW content and each resolved
user id goes through `addMention` then `addCollaborator(..., 'view', actor)`. -/
def updateMentionStage (doc : Document) (actor : UserId) (contentOpt : Option String)
    (resolvedMentions : List UserId) (now : Nat) : Document :=
  match contentOpt with
  | some _ => resolvedMentions.foldl (mentionStep actor now) doc
  | none => doc

/-- The field-overwrite stage of `router.put('/:id')`:
`if (title) document.title = title` etc., then
`document.lastModifiedBy = req.user.id` unconditionally. -/
def updateFieldStage (doc : Document) (actor : UserId) (titleOpt contentOpt : Option String)
    (privacyOpt : Option Privacy) (statusOpt : Option DocStatus)
    (tagsOpt : Option (List String)) : Document :=
  { doc with
    title := titleOpt.getD doc.title,
    content := contentOpt.getD doc.content,
    privacy := privacyOpt.getD doc.privacy,
    status := statusOpt.getD doc.status,
    tags := tagsOpt.getD doc.tags,
    lastModifiedBy := some actor }

/-- The successful path of `router.put('/:id')`: mention stage, field
overwrite, then `document.save()`.  Mongoose marks `title`/`content` modified
only when the assigned value differs from the stored one, which decides
whether the pre-save hook fires. -/
def updateBody (doc : Document) (actor : UserId) (titleOpt contentOpt : Option String)
    (privacyOpt : Option Privacy) (statusOpt : Option DocStatus)
    (tagsOpt : Option (List String)) (resolvedMentions : List UserId) (now : Nat) : Document :=
  let d := updateMentionStage doc actor contentOpt resolvedMentions now
  let d' := updateFieldStage d actor titleOpt contentOpt privacyOpt statusOpt tagsOpt
  preSave d' (decide (¬ d'.title = d.title ∨ ¬ d'.content = d.content)) now

/-- `router.put('/:id')` (update document).  Optional request fields are
`Option`s (`if (title) document.title = title`, etc.); `resolvedMentions` is
the mention scan of the submitted content, processed only when `content` is
present. -/
def updateDocument (docOpt : Option Document) (actor : UserId)
    (titleOpt contentOpt : Option String) (privacyOpt : Option Privacy)
    (statusOpt : Option DocStatus) (tagsOpt : Option (List String))
    (resolvedMentions : List UserId) (now : Nat) : Except DocError Document :=
  match docOpt with
  | none => .error .notFound
  | some doc =>
    if doc.isDeleted then .error .notFound
    else if ¬ hasPermission doc actor PermLevel.edit then .error .forbidden
    else .ok (updateBody doc actor titleOpt contentOpt privacyOpt statusOpt tagsOpt
        resolvedMentions now)

/-- `router.delete('/:id')`: 404 when missing or already soft-deleted, 403
unless the actor is the author or a platform admin, otherwise set
`isDeleted = true` and save (the save modifies neither title nor content). -/
def deleteDocument (docOpt : Option Document) (actor : UserId) (role : Role)
    (now : Nat) : Except DocError Document :=
  match docOpt with
  | none => .error .notFound
  | some doc =>
    if doc.isDeleted then .error .notFound
    else if ¬ doc.author = actor ∧ ¬ role = Role.admin then .error .forbidden
    else .ok (preSave { doc with isDeleted := true } false now)

/-- `router.post('/:id/collaborators')`: 404 when missing or soft-deleted,
403 unless author or platform admin, then `addCollaborator` with the level
from the request and save.  The email-to-user lookup happens upstream; its
result is the `targetUser` argument. -/
def grantCollaboratorRoute (docOpt : Option Document) (actor : UserId) (role : Role)
    (targetUser : UserId) (permission : PermLevel) (now : Nat) : Except DocError Document :=
  match docOpt with
  | none => .error .notFound
  | some doc =>
    if doc.isDeleted then .error .notFound
    else if ¬ doc.author = actor ∧ ¬ role = Role.admin then .error .forbidden
    else .ok (preSave (addCollaborator doc targetUser permission actor now) false now)

/-- `router.delete('/:id/collaborators/:userId')`: 404 when missing or
soft-deleted, 403 unless author or platform admin, then `removeCollaborator`
and save. -/
def revokeCollaboratorRoute (docOpt : Option Document) (actor : UserId) (role : Role)
    (targetUser : UserId) (now : Nat) : Except DocError Document :=
  match docOpt with
  | none => .error .notFound
  | some doc =>
    if doc.isDeleted then .error .notFound
    else if ¬ doc.author = actor ∧ ¬ role = Role.admin then .error .forbidden
    else .ok (preSave (removeCollaborator doc targetUser) false now)

/-- The user ids carried by the permission entries, in order. -/
def permUsers (doc : Document) : List UserId :=
  doc.permissions.map PermissionEntry.user

/-- The data-model invariant: `collaborators` and the keys of `permissions`
agree as sets, and each user id occurs at most once on either side. -/
def collabInvariant (doc : Document) : Prop :=
  (∀ u ∈ doc.collaborators, u ∈ permUsers doc) ∧
  (∀ u ∈ permUsers doc, u ∈ doc.collaborators) ∧
  doc.collaborators.Nodup ∧ (permUsers doc).Nodup

instance (doc : Document) : Decidable (collabInvariant doc) := by
  unfold collabInvariant; infer_instance

/-- A concrete private document whose user `1` holds an `edit` entry, used by
counterexamples and witnesses about grants and updates. -/
def sampleEditDoc : Document :=
  { title := "T", content := "A", author := 0, status := .draft,
    privacy := .priv,
    permissions := [⟨1, .edit, 0, 0⟩],
    versions := [], currentVersion := 1, tags := [],
    mentions := [], collaborators := [1],
    lastModifiedBy := some 0, isDeleted := false }

/-- A concrete private document used by witnesses: author `0`, one `view`
entry for user `1`. -/
def sampleDoc : Document :=
  { title := "T", content := "A", author := 0, status := .draft,
    privacy := .priv,
    permissions := [⟨1, .view, 0, 0⟩],
    versions := [], currentVersion := 1, tags := [],
    mentions := [], collaborators := [1],
    lastModifiedBy := some 0, isDeleted := false }

theorem find?_user_mem_unique {l : List PermissionEntry} {u : UserId} {p q : PermissionEntry}
    (hnd : (l.map PermissionEntry.user).Nodup)
    (hp : p ∈ l) (hq : q ∈ l) (hpu : p.user = u) (hqu : q.user = u) : p = q := by
  induction l with
  | nil => cases hp
  | cons a rest ih =>
    simp only [List.map_cons, List.nodup_cons] at hnd
    rcases List.mem_cons.mp hp with rfl | hp'
    · rcases List.mem_cons.mp hq with rfl | hq'
      · rfl
      · exact absurd (hqu.trans hpu.symm ▸ List.mem_map_of_mem PermissionEntry.user hq')
          (by simpa [hpu] using hnd.1)
    · rcases List.mem_cons.mp hq with rfl | hq'
      · exact absurd (hpu.trans hqu.symm ▸ List.mem_map_of_mem PermissionEntry.user hp')
          (by simpa [hqu] using hnd.1)
      · exact ih hnd.2 hp' hq'

/-- C1: `hasPermission(document, userId, requiredLevel)` returns true iff the
document is public and `view` is required, or `userId` is the author, or the
permission entry for `userId` (unique, per the data model) has level at least
the required one; a user with no entry on a private document is denied even
for view. -/
theorem hasPermission_spec (doc : Document) (userId : UserId) (required : PermLevel)
    (hnd : (permUsers doc).Nodup) :
    hasPermission doc userId required = true ↔
      ((doc.privacy = Privacy.pub ∧ required = PermLevel.view) ∨
        userId = doc.author ∨
        ∃ p ∈ doc.permissions, p.user = userId ∧
          permissionLevels required ≤ permissionLevels p.permission) := by
  unfold hasPermission
  by_cases hpub : doc.privacy = Privacy.pub ∧ required = PermLevel.view
  · simp [hpub]
  · simp only [hpub, if_false]
    by_cases hauth : doc.author = userId
    · simp [hauth]
    · simp only [hauth, if_false]
      constructor
      · intro h
        match hfind : doc.permissions.find? (fun p => p.user = userId) with
        | none => rw [hfind] at h; cases h
        | some p =>
          rw [hfind] at h
          refine Or.inr (Or.inr ⟨p, List.mem_of_find?_eq_some hfind, ?_, ?_⟩)
          · simpa using List.find?_some hfind
          · simpa using h
      · rintro (hc | hc | ⟨p, hmem, hpu, hlev⟩)
        · exact hc.elim
        · exact absurd hc.symm hauth
        · match hfind : doc.permissions.find? (fun p => p.user = userId) with
          | none =>
            have := List.find?_eq_none.mp hfind p hmem
            simp [hpu] at this
          | some q =>
            have hqmem := List.mem_of_find?_eq_some hfind
            have hqu : q.user = userId := by simpa using List.find?_some hfind
            have : p = q := find?_user_mem_unique hnd hmem hqmem hpu hqu
            subst this
            rw [hfind]
            simpa using hlev

/-- Witness for C1 at the concrete document `sampleDoc`: user `1` holds a
`view` entry, so an `edit` request is denied. -/
theorem hasPermission_spec_witness :
    (permUsers sampleDoc).Nodup ∧
      (hasPermission sampleDoc 1 PermLevel.edit = true ↔
        ((sampleDoc.privacy = Privacy.pub ∧ PermLevel.edit = PermLevel.view) ∨
          (1 : UserId) = sampleDoc.author ∨
          ∃ p ∈ sampleDoc.permissions, p.user = 1 ∧
            permissionLevels PermLevel.edit ≤ permissionLevels p.permission)) :=
  ⟨by decide, hasPermission_spec sampleDoc 1 PermLevel.edit (by decide)⟩

/-! ### Shape lemmas for the mention/grant folds and the save hook -/

theorem addMention_foldl_eq (ms : List UserId) (now : Nat) (doc : Document) :
    ms.foldl (fun d u => addMention d u now) doc =
      { doc with mentions := ms.foldl (fun l u => pushMention l u now) doc.mentions } := by
  induction ms generalizing doc with
  | nil => rfl
  | cons u rest ih =>
    rw [List.foldl_cons, List.foldl_cons, ih]
    exact rfl

theorem addCollaborator_foldl_eq (ms : List UserId) (perm : PermLevel) (actor : UserId)
    (now : Nat) (doc : Document) :
    ms.foldl (fun d u => addCollaborator d u perm actor now) doc =
      { doc with
        permissions := ms.foldl (fun l u => upsertPermission l u perm actor now) doc.permissions,
        collaborators := ms.foldl pushUnique doc.collaborators } := by
  induction ms generalizing doc with
  | nil => rfl
  | cons u rest ih =>
    rw [List.foldl_cons, List.foldl_cons, List.foldl_cons, ih]
    exact rfl

theorem mentionStep_foldl_eq (ms : List UserId) (actor : UserId) (now : Nat) (doc : Document) :
    ms.foldl (mentionStep actor now) doc =
      { doc with
        mentions := ms.foldl (fun l u => pushMention l u now) doc.mentions,
        permissions := ms.foldl
          (fun l u => upsertPermission l u PermLevel.view actor now) doc.permissions,
        collaborators := ms.foldl pushUnique doc.collaborators } := by
  induction ms generalizing doc with
  | nil => rfl
  | cons u rest ih =>
    rw [List.foldl_cons, List.foldl_cons, List.foldl_cons, List.foldl_cons, ih]
    exact rfl

@[simp] theorem preSave_false_eq (doc : Document) (now : Nat) : preSave doc false now = doc := rfl

theorem preSave_true_eq (doc : Document) (now : Nat) :
    preSave doc true now =
      { doc with
        versions := doc.versions ++
          [⟨doc.content, doc.title, doc.currentVersion + 1,
            doc.lastModifiedBy.getD doc.author, now⟩],
        currentVersion := doc.currentVersion + 1 } := rfl

@[simp] theorem preSave_title (doc : Document) (b : Bool) (now : Nat) :
    (preSave doc b now).title = doc.title := by unfold preSave; cases b <;> rfl

@[simp] theorem preSave_content (doc : Document) (b : Bool) (now : Nat) :
    (preSave doc b now).content = doc.content := by unfold preSave; cases b <;> rfl

@[simp] theorem preSave_author (doc : Document) (b : Bool) (now : Nat) :
    (preSave doc b now).author = doc.author := by unfold preSave; cases b <;> rfl

@[simp] theorem preSave_status (doc : Document) (b : Bool) (now : Nat) :
    (preSave doc b now).status = doc.status := by unfold preSave; cases b <;> rfl

@[simp] theorem preSave_privacy (doc : Document) (b : Bool) (now : Nat) :
    (preSave doc b now).privacy = doc.privacy := by unfold preSave; cases b <;> rfl

@[simp] theorem preSave_tags (doc : Document) (b : Bool) (now : Nat) :
    (preSave doc b now).tags = doc.tags := by unfold preSave; cases b <;> rfl

@[simp] theorem preSave_permissions (doc : Document) (b : Bool) (now : Nat) :
    (preSave doc b now).permissions = doc.permissions := by unfold preSave; cases b <;> rfl

@[simp] theorem preSave_collaborators (doc : Document) (b : Bool) (now : Nat) :
    (preSave doc b now).collaborators = doc.collaborators := by unfold preSave; cases b <;> rfl

@[simp] theorem preSave_mentions (doc : Document) (b : Bool) (now : Nat) :
    (preSave doc b now).mentions = doc.mentions := by unfold preSave; cases b <;> rfl

@[simp] theorem preSave_lastModifiedBy (doc : Document) (b : Bool) (now : Nat) :
    (preSave doc b now).lastModifiedBy = doc.lastModifiedBy := by
  unfold preSave; cases b <;> rfl

@[simp] theorem preSave_isDeleted (doc : Document) (b : Bool) (now : Nat) :
    (preSave doc b now).isDeleted = doc.isDeleted := by unfold preSave; cases b <;> rfl

@[simp] theorem updateMentionStage_title (doc : Document) (actor : UserId)
    (c : Option String) (ms : List UserId) (now : Nat) :
    (updateMentionStage doc actor c ms now).title = doc.title := by
  unfold updateMentionStage; cases c <;> simp [mentionStep_foldl_eq]

@[simp] theorem updateMentionStage_content (doc : Document) (actor : UserId)
    (c : Option String) (ms : List UserId) (now : Nat) :
    (updateMentionStage doc actor c ms now).content = doc.content := by
  unfold updateMentionStage; cases c <;> simp [mentionStep_foldl_eq]

@[simp] theorem updateMentionStage_versions (doc : Document) (actor : UserId)
    (c : Option String) (ms : List UserId) (now : Nat) :
    (updateMentionStage doc actor c ms now).versions = doc.versions := by
  unfold updateMentionStage; cases c <;> simp [mentionStep_foldl_eq]

@[simp] theorem updateMentionStage_currentVersion (doc : Document) (actor : UserId)
    (c : Option String) (ms : List UserId) (now : Nat) :
    (updateMentionStage doc actor c ms now).currentVersion = doc.currentVersion := by
  unfold updateMentionStage; cases c <;> simp [mentionStep_foldl_eq]

@[simp] theorem updateMentionStage_author (doc : Document) (actor : UserId)
    (c : Option String) (ms : List UserId) (now : Nat) :
    (updateMentionStage doc actor c ms now).author = doc.author := by
  unfold updateMentionStage; cases c <;> simp [mentionStep_foldl_eq]

@[simp] theorem updateMentionStage_lastModifiedBy (doc : Document) (actor : UserId)
    (c : Option String) (ms : List UserId) (now : Nat) :
    (updateMentionStage doc actor c ms now).lastModifiedBy = doc.lastModifiedBy := by
  unfold updateMentionStage; cases c <;> simp [mentionStep_foldl_eq]

@[simp] theorem updateMentionStage_isDeleted (doc : Document) (actor : UserId)
    (c : Option String) (ms : List UserId) (now : Nat) :
    (updateMentionStage doc actor c ms now).isDeleted = doc.isDeleted := by
  unfold updateMentionStage; cases c <;> simp [mentionStep_foldl_eq]

theorem preSave_decide_true (doc : Document) {P : Prop} [Decidable P] (h : P) (now : Nat) :
    preSave doc (decide P) now = preSave doc true now := by
  rw [decide_eq_true h]

/-- The success branch of `updateDocument`. -/
theorem updateDocument_ok (doc : Document) (actor : UserId)
    (titleOpt contentOpt : Option String) (privacyOpt : Option Privacy)
    (statusOpt : Option DocStatus) (tagsOpt : Option (List String))
    (ms : List UserId) (now : Nat)
    (hdel : doc.isDeleted = false)
    (hperm : hasPermission doc actor PermLevel.edit = true) :
    updateDocument (some doc) actor titleOpt contentOpt privacyOpt statusOpt tagsOpt ms now =
      .ok (updateBody doc actor titleOpt contentOpt privacyOpt statusOpt tagsOpt ms now) := by
  simp [updateDocument, hdel, hperm]

/-- A successful update whose submitted title or content differs from the
stored one fires the save hook once; the appended entry carries the NEW
title/content, number `currentVersion + 1`, and the acting user. -/
theorem updateDocument_changed (doc : Document) (actor : UserId)
    (titleOpt contentOpt : Option String) (privacyOpt : Option Privacy)
    (statusOpt : Option DocStatus) (tagsOpt : Option (List String))
    (ms : List UserId) (now : Nat)
    (hdel : doc.isDeleted = false)
    (hperm : hasPermission doc actor PermLevel.edit = true)
    (hch : ¬ titleOpt.getD doc.title = doc.title ∨ ¬ contentOpt.getD doc.content = doc.content) :
    ∃ d', updateDocument (some doc) actor titleOpt contentOpt privacyOpt statusOpt tagsOpt
        ms now = .ok d' ∧
      d'.versions = doc.versions ++
        [⟨contentOpt.getD doc.content, titleOpt.getD doc.title,
          doc.currentVersion + 1, actor, now⟩] ∧
      d'.currentVersion = doc.currentVersion + 1 ∧
      d'.title = titleOpt.getD doc.title ∧
      d'.content = contentOpt.getD doc.content ∧
      d'.lastModifiedBy = some actor := by
  refine ⟨_, updateDocument_ok doc actor titleOpt contentOpt privacyOpt statusOpt tagsOpt
    ms now hdel hperm, ?_⟩
  unfold updateBody
  have hP : ¬ (updateFieldStage (updateMentionStage doc actor contentOpt ms now) actor
        titleOpt contentOpt privacyOpt statusOpt tagsOpt).title =
        (updateMentionStage doc actor contentOpt ms now).title ∨
      ¬ (updateFieldStage (updateMentionStage doc actor contentOpt ms now) actor
        titleOpt contentOpt privacyOpt statusOpt tagsOpt).content =
        (updateMentionStage doc actor contentOpt ms now).content := by
    simpa [updateFieldStage] using hch
  rw [preSave_decide_true _ hP, preSave_true_eq]
  simp [updateFieldStage]

/-- C2 counterexample: updating `sampleDoc`'s content from `"A"` to `"B"`
appends a version entry whose recorded content is `"B"` — the newly
submitted value — while the pre-change content was `"A"`. -/
theorem versionSnapshot_counterexample :
    updateDocument (some sampleDoc) 0 none (some "B") none none none [] 7 =
      .ok { sampleDoc with
              content := "B",
              versions := [⟨"B", "T", 2, 0, 7⟩],
              currentVersion := 2 } ∧
    ¬ ((⟨"B", "T", 2, 0, 7⟩ : VersionEntry).content = sampleDoc.content) :=
  ⟨rfl, by decide⟩

/-- C2 (amended): for every update of an existing document that changes its
title or content, the version entry appended to `versions` records the title
and content as newly submitted (the post-change values, which the save hook
reads after the route has assigned them), not the pre-change ones. -/
theorem versionSnapshot_amended (doc : Document) (actor : UserId)
    (titleOpt contentOpt : Option String) (privacyOpt : Option Privacy)
    (statusOpt : Option DocStatus) (tagsOpt : Option (List String))
    (ms : List UserId) (now : Nat)
    (hdel : doc.isDeleted = false)
    (hperm : hasPermission doc actor PermLevel.edit = true)
    (hch : ¬ titleOpt.getD doc.title = doc.title ∨ ¬ contentOpt.getD doc.content = doc.content) :
    ∃ d', updateDocument (some doc) actor titleOpt contentOpt privacyOpt statusOpt tagsOpt
        ms now = .ok d' ∧
      d'.versions = doc.versions ++
        [⟨contentOpt.getD doc.content, titleOpt.getD doc.title,
          doc.currentVersion + 1, actor, now⟩] ∧
      d'.title = titleOpt.getD doc.title ∧
      d'.content = contentOpt.getD doc.content := by
  obtain ⟨d', hok, hv, _, ht, hc, _⟩ := updateDocument_changed doc actor titleOpt contentOpt
    privacyOpt statusOpt tagsOpt ms now hdel hperm hch
  exact ⟨d', hok, hv, ht, hc⟩

/-- Witness for C2 (amended) at `sampleDoc`, content `"A"` replaced by `"B"`. -/
theorem versionSnapshot_amended_witness :
    ∃ d', updateDocument (some sampleDoc) 0 none (some "B") none none none [] 7 = .ok d' ∧
      d'.versions = sampleDoc.versions ++
        [⟨(some "B").getD sampleDoc.content, (none : Option String).getD sampleDoc.title,
          sampleDoc.currentVersion + 1, 0, 7⟩] ∧
      d'.title = (none : Option String).getD sampleDoc.title ∧
      d'.content = (some "B").getD sampleDoc.content :=
  versionSnapshot_amended sampleDoc 0 none (some "B") none none none [] 7
    (by decide) (by decide) (by decide)

/-- Evaluating `createDocument`: on the initial save Mongoose marks every
assigned path of a new document as modified, so the hook records a version
numbered 2 holding the submitted title/content, and `currentVersion` is 2. -/
theorem createDocument_eq (actor : UserId) (title content : String) (privacy : Privacy)
    (status : DocStatus) (tags : List String) (ms : List UserId) (now : Nat) :
    createDocument actor title content privacy status tags ms now =
      { title := title, content := content, author := actor, status := status,
        privacy := privacy,
        permissions := ms.foldl (fun l u => upsertPermission l u PermLevel.view actor now) [],
        versions := [⟨content, title, 2, actor, now⟩],
        currentVersion := 2, tags := tags,
        mentions := ms.foldl (fun l u => pushMention l u now) [],
        collaborators := ms.foldl pushUnique [],
        lastModifiedBy := some actor, isDeleted := false } := by
  simp only [createDocument, addMention_foldl_eq, addCollaborator_foldl_eq]
  rfl

/-- C3 counterexample: the freshly created document already has
`currentVersion = 2` and a non-empty `versions` list. -/
theorem createVersion_counterexample :
    (createDocument 0 "T" "C" Privacy.priv DocStatus.draft [] [] 3).currentVersion = 2 ∧
    ¬ (createDocument 0 "T" "C" Privacy.priv DocStatus.draft [] [] 3).versions = [] := by
  rw [createDocument_eq]
  exact ⟨rfl, by decide⟩

/-- C3 (amended): `createDocument` produces a document with `currentVersion`
equal to 2 and a single version entry with `versionNumber` 2 recording the
submitted title and content (the save of a brand-new document already fires
the versioning hook); the first subsequent title or content edit appends a
version entry with `versionNumber` 3. -/
theorem createVersion_amended (actor : UserId) (title content : String) (privacy : Privacy)
    (status : DocStatus) (tags : List String) (ms : List UserId) (now : Nat)
    (newContent : String) (now2 : Nat) (hne : ¬ newContent = content) :
    (createDocument actor title content privacy status tags ms now).currentVersion = 2 ∧
    (createDocument actor title content privacy status tags ms now).versions =
      [⟨content, title, 2, actor, now⟩] ∧
    ∃ d', updateDocument (some (createDocument actor title content privacy status tags ms now))
        actor none (some newContent) none none none [] now2 = .ok d' ∧
      d'.versions = [⟨content, title, 2, actor, now⟩, ⟨newContent, title, 3, actor, now2⟩] ∧
      d'.currentVersion = 3 := by
  have hc := createDocument_eq actor title content privacy status tags ms now
  refine ⟨by rw [hc], by rw [hc], ?_⟩
  have hdel : (createDocument actor title content privacy status tags ms now).isDeleted
      = false := by rw [hc]
  have hperm : hasPermission (createDocument actor title content privacy status tags ms now)
      actor PermLevel.edit = true := by
    rw [hc]; simp [hasPermission]
  have hch : ¬ (none : Option String).getD
        (createDocument actor title content privacy status tags ms now).title =
        (createDocument actor title content privacy status tags ms now).title ∨
      ¬ (some newContent).getD
        (createDocument actor title content privacy status tags ms now).content =
        (createDocument actor title content privacy status tags ms now).content := by
    right; rw [hc]; simpa using hne
  obtain ⟨d', hok, hv, hcv, _, _, _⟩ := updateDocument_changed
    (createDocument actor title content privacy status tags ms now) actor
    none (some newContent) none none none [] now2 hdel hperm hch
  refine ⟨d', hok, ?_, ?_⟩
  · rw [hv, hc]; exact rfl
  · rw [hcv, hc]

/-- Witness for C3 (amended) at a concrete creation followed by an edit. -/
theorem createVersion_amended_witness :
    (createDocument 0 "T" "C" Privacy.priv DocStatus.draft [] [] 3).currentVersion = 2 ∧
    (createDocument 0 "T" "C" Privacy.priv DocStatus.draft [] [] 3).versions =
      [⟨"C", "T", 2, 0, 3⟩] ∧
    ∃ d', updateDocument (some (createDocument 0 "T" "C" Privacy.priv DocStatus.draft [] [] 3))
        0 none (some "D") none none none [] 4 = .ok d' ∧
      d'.versions = [⟨"C", "T", 2, 0, 3⟩, ⟨"D", "T", 3, 0, 4⟩] ∧
      d'.currentVersion = 3 :=
  createVersion_amended 0 "T" "C" Privacy.priv DocStatus.draft [] [] 3 "D" 4 (by decide)

/-- C4: evaluation at the failing input.  On `sampleEditDoc`, user `1` holds
an `edit` entry; an update whose new content re-mentions user `1` runs
`addCollaborator(1, 'view', actor)`, whose upsert overwrites the entry's
level — the grant is downgraded to `view`, contradicting the claim (and the
spec's own §9 note flags this as likely unintended). -/
theorem mentionDowngrade_eval :
    (updateDocument (some sampleEditDoc) 0 none (some "hi @u1") none none none [1] 5).map
        Document.permissions = .ok [⟨1, PermLevel.view, 0, 5⟩] ∧
    sampleEditDoc.permissions = [⟨1, PermLevel.edit, 0, 0⟩] :=
  ⟨rfl, rfl⟩

theorem updateBody_lastModifiedBy (doc : Document) (actor : UserId)
    (titleOpt contentOpt : Option String) (privacyOpt : Option Privacy)
    (statusOpt : Option DocStatus) (tagsOpt : Option (List String))
    (ms : List UserId) (now : Nat) :
    (updateBody doc actor titleOpt contentOpt privacyOpt statusOpt tagsOpt ms now).lastModifiedBy
      = some actor := by
  simp [updateBody, updateFieldStage]

/-- C9 counterexample: on `sampleEditDoc` (lastModifiedBy = user 0), an
update by user 1 that changes only `status` — no title or content change, no
version appended — still sets `lastModifiedBy` to user 1. -/
theorem lastModified_counterexample :
    (updateDocument (some sampleEditDoc) 1 none none none (some DocStatus.published) none [] 9).map
        (fun d => (d.lastModifiedBy, d.title, d.content, d.versions)) =
      .ok (some 1, "T", "A", []) ∧
    ¬ (some (1 : UserId) = sampleEditDoc.lastModifiedBy) :=
  ⟨rfl, by decide⟩

/-- C9 (amended): `lastModifiedBy` equals the acting user of the most recent
successful update of ANY kind (the route assigns it unconditionally), and it
is initialised to the author at creation; an update that modifies only
status, privacy, or tags still overwrites it with the acting user. -/
theorem lastModified_amended :
    (∀ (docOpt : Option Document) (actor : UserId) (titleOpt contentOpt : Option String)
        (privacyOpt : Option Privacy) (statusOpt : Option DocStatus)
        (tagsOpt : Option (List String)) (ms : List UserId) (now : Nat) (d' : Document),
      updateDocument docOpt actor titleOpt contentOpt privacyOpt statusOpt tagsOpt ms now
          = .ok d' → d'.lastModifiedBy = some actor) ∧
    (∀ (actor : UserId) (title content : String) (privacy : Privacy) (status : DocStatus)
        (tags : List String) (ms : List UserId) (now : Nat),
      (createDocument actor title content privacy status tags ms now).lastModifiedBy
        = some actor) := by
  constructor
  · intro docOpt actor titleOpt contentOpt privacyOpt statusOpt tagsOpt ms now d' h
    match docOpt with
    | none => simp [updateDocument] at h
    | some doc =>
      by_cases h1 : doc.isDeleted
      · simp [updateDocument, h1] at h
      · by_cases h2 : hasPermission doc actor PermLevel.edit
        · simp [updateDocument, h1, h2] at h
          rw [← h]
          exact updateBody_lastModifiedBy doc actor titleOpt contentOpt privacyOpt statusOpt
            tagsOpt ms now
        · simp [updateDocument, h1, h2] at h
  · intro actor title content privacy status tags ms now
    rw [createDocument_eq]

/-- Witness for C9 (amended): the concrete status-only update of the
counterexample, and a concrete creation. -/
theorem lastModified_amended_witness :
    ({ sampleEditDoc with status := DocStatus.published, lastModifiedBy := some 1 }
        : Document).lastModifiedBy = some 1 ∧
    (createDocument 0 "T" "C" Privacy.priv DocStatus.draft [] [] 3).lastModifiedBy = some 0 :=
  ⟨lastModified_amended.1 (some sampleEditDoc) 1 none none none (some DocStatus.published)
      none [] 9 _ rfl,
   lastModified_amended.2 0 "T" "C" Privacy.priv DocStatus.draft [] [] 3⟩

theorem updateBody_unchanged (doc : Document) (actor : UserId)
    (titleOpt contentOpt : Option String) (privacyOpt : Option Privacy)
    (statusOpt : Option DocStatus) (tagsOpt : Option (List String))
    (ms : List UserId) (now : Nat)
    (ht : titleOpt.getD doc.title = doc.title)
    (hc : contentOpt.getD doc.content = doc.content) :
    (updateBody doc actor titleOpt contentOpt privacyOpt statusOpt tagsOpt ms now).versions
        = doc.versions ∧
    (updateBody doc actor titleOpt contentOpt privacyOpt statusOpt tagsOpt ms now).currentVersion
        = doc.currentVersion := by
  simp only [updateBody]
  have hP : ¬ (¬ (updateFieldStage (updateMentionStage doc actor contentOpt ms now) actor
        titleOpt contentOpt privacyOpt statusOpt tagsOpt).title =
        (updateMentionStage doc actor contentOpt ms now).title ∨
      ¬ (updateFieldStage (updateMentionStage doc actor contentOpt ms now) actor
        titleOpt contentOpt privacyOpt statusOpt tagsOpt).content =
        (updateMentionStage doc actor contentOpt ms now).content) := by
    simp [updateFieldStage, ht, hc]
  rw [decide_eq_false hP, preSave_false_eq]
  exact ⟨by simp [updateFieldStage], by simp [updateFieldStage]⟩

/-- C10: a successful update whose submitted title and content (if present)
equal the stored ones appends no version entry and leaves `currentVersion`
unchanged; likewise the grant-collaborator, revoke-collaborator, and
soft-delete routes never touch `versions` or `currentVersion`. -/
theorem noVersionWithoutChange :
    (∀ (doc : Document) (actor : UserId) (titleOpt contentOpt : Option String)
        (privacyOpt : Option Privacy) (statusOpt : Option DocStatus)
        (tagsOpt : Option (List String)) (ms : List UserId) (now : Nat) (d' : Document),
      titleOpt.getD doc.title = doc.title →
      contentOpt.getD doc.content = doc.content →
      updateDocument (some doc) actor titleOpt contentOpt privacyOpt statusOpt tagsOpt ms now
          = .ok d' →
      d'.versions = doc.versions ∧ d'.currentVersion = doc.currentVersion) ∧
    (∀ (doc : Document) (actor : UserId) (role : Role) (target : UserId)
        (permission : PermLevel) (now : Nat) (d' : Document),
      grantCollaboratorRoute (some doc) actor role target permission now = .ok d' →
      d'.versions = doc.versions ∧ d'.currentVersion = doc.currentVersion) ∧
    (∀ (doc : Document) (actor : UserId) (role : Role) (target : UserId) (now : Nat)
        (d' : Document),
      revokeCollaboratorRoute (some doc) actor role target now = .ok d' →
      d'.versions = doc.versions ∧ d'.currentVersion = doc.currentVersion) ∧
    (∀ (doc : Document) (actor : UserId) (role : Role) (now : Nat) (d' : Document),
      deleteDocument (some doc) actor role now = .ok d' →
      d'.versions = doc.versions ∧ d'.currentVersion = doc.currentVersion) := by
  refine ⟨?_, ?_, ?_, ?_⟩
  · intro doc actor titleOpt contentOpt privacyOpt statusOpt tagsOpt ms now d' ht hc h
    by_cases h1 : doc.isDeleted
    · simp [updateDocument, h1] at h
    · by_cases h2 : hasPermission doc actor PermLevel.edit
      · simp [updateDocument, h1, h2] at h
        rw [← h]
        exact updateBody_unchanged doc actor titleOpt contentOpt privacyOpt statusOpt
          tagsOpt ms now ht hc
      · simp [updateDocument, h1, h2] at h
  · intro doc actor role target permission now d' h
    by_cases h1 : doc.isDeleted
    · simp [grantCollaboratorRoute, h1] at h
    · by_cases h2 : ¬ doc.author = actor ∧ ¬ role = Role.admin
      · simp [grantCollaboratorRoute, h1, h2] at h
      · simp [grantCollaboratorRoute, h1, h2] at h
        rw [← h]
        exact ⟨rfl, rfl⟩
  · intro doc actor role target now d' h
    by_cases h1 : doc.isDeleted
    · simp [revokeCollaboratorRoute, h1] at h
    · by_cases h2 : ¬ doc.author = actor ∧ ¬ role = Role.admin
      · simp [revokeCollaboratorRoute, h1, h2] at h
      · simp [revokeCollaboratorRoute, h1, h2] at h
        rw [← h]
        exact ⟨rfl, rfl⟩
  · intro doc actor role now d' h
    by_cases h1 : doc.isDeleted
    · simp [deleteDocument, h1] at h
    · by_cases h2 : ¬ doc.author = actor ∧ ¬ role = Role.admin
      · simp [deleteDocument, h1, h2] at h
      · simp [deleteDocument, h1, h2] at h
        rw [← h]
        exact ⟨rfl, rfl⟩

/-- Witness for C10: a status-only update, a grant, a revoke, and a delete on
concrete documents, none of which touches `versions` or `currentVersion`. -/
theorem noVersionWithoutChange_witness :
    (({ sampleEditDoc with status := DocStatus.published, lastModifiedBy := some 1 }
        : Document).versions = sampleEditDoc.versions ∧
      ({ sampleEditDoc with status := DocStatus.published, lastModifiedBy := some 1 }
        : Document).currentVersion = sampleEditDoc.currentVersion) ∧
    ((addCollaborator sampleDoc 2 PermLevel.edit 0 4).versions = sampleDoc.versions ∧
      (addCollaborator sampleDoc 2 PermLevel.edit 0 4).currentVersion
        = sampleDoc.currentVersion) ∧
    ((removeCollaborator sampleDoc 1).versions = sampleDoc.versions ∧
      (removeCollaborator sampleDoc 1).currentVersion = sampleDoc.currentVersion) ∧
    (({ sampleDoc with isDeleted := true } : Document).versions = sampleDoc.versions ∧
      ({ sampleDoc with isDeleted := true } : Document).currentVersion
        = sampleDoc.currentVersion) :=
  ⟨noVersionWithoutChange.1 sampleEditDoc 1 none none none (some DocStatus.published)
      none [] 9 _ rfl rfl rfl,
   noVersionWithoutChange.2.1 sampleDoc 0 Role.user 2 PermLevel.edit 4 _ rfl,
   noVersionWithoutChange.2.2.1 sampleDoc 0 Role.user 1 5 _ rfl,
   noVersionWithoutChange.2.2.2 sampleDoc 0 Role.user 6 _ rfl⟩

/-- C8: `deleteDocument` yields `NotFound` for a missing or already
soft-deleted document, `Forbidden` when the actor is neither the author nor a
platform admin (the document is returned unchanged only on success), and
otherwise succeeds with the same document whose only change is
`isDeleted = true`. -/
theorem deleteDocument_spec :
    (∀ (actor : UserId) (role : Role) (now : Nat),
      deleteDocument none actor role now = .error .notFound) ∧
    (∀ (doc : Document) (actor : UserId) (role : Role) (now : Nat),
      doc.isDeleted = true → deleteDocument (some doc) actor role now = .error .notFound) ∧
    (∀ (doc : Document) (actor : UserId) (role : Role) (now : Nat),
      doc.isDeleted = false → ¬ doc.author = actor → ¬ role = Role.admin →
      deleteDocument (some doc) actor role now = .error .forbidden) ∧
    (∀ (doc : Document) (actor : UserId) (role : Role) (now : Nat),
      doc.isDeleted = false → (doc.author = actor ∨ role = Role.admin) →
      deleteDocument (some doc) actor role now = .ok { doc with isDeleted := true }) := by
  refine ⟨fun actor role now => rfl, ?_, ?_, ?_⟩
  · intro doc actor role now h1
    simp [deleteDocument, h1]
  · intro doc actor role now h1 h2 h3
    simp [deleteDocument, h1, h2, h3]
  · intro doc actor role now h1 h2
    rcases h2 with h2 | h2 <;> simp [deleteDocument, h1, h2]

/-- Witness for C8 at concrete inputs: missing document, soft-deleted
document, non-author non-admin actor, and author. -/
theorem deleteDocument_spec_witness :
    deleteDocument none 0 Role.user 1 = .error DocError.notFound ∧
    deleteDocument (some { sampleDoc with isDeleted := true }) 0 Role.user 1
      = .error DocError.notFound ∧
    deleteDocument (some sampleDoc) 1 Role.user 1 = .error DocError.forbidden ∧
    deleteDocument (some sampleDoc) 0 Role.user 1 = .ok { sampleDoc with isDeleted := true } :=
  ⟨deleteDocument_spec.1 0 Role.user 1,
   deleteDocument_spec.2.1 { sampleDoc with isDeleted := true } 0 Role.user 1 rfl,
   deleteDocument_spec.2.2.1 sampleDoc 1 Role.user 1 rfl (by decide) (by decide),
   deleteDocument_spec.2.2.2 sampleDoc 0 Role.user 1 rfl (Or.inl rfl)⟩

/-! ### List-level lemmas about upsert, pushUnique and pushMention -/

theorem pushUnique_mem (l : List UserId) (u u' : UserId) :
    u' ∈ pushUnique l u ↔ u' ∈ l ∨ u' = u := by
  unfold pushUnique
  by_cases h : l.contains u = true
  · rw [if_pos h]
    have hm : u ∈ l := by simpa using h
    constructor
    · exact Or.inl
    · rintro (h' | rfl) <;> [exact h'; exact hm]
  · rw [if_neg h]
    simp

theorem pushUnique_nodup (l : List UserId) (u : UserId) (h : l.Nodup) :
    (pushUnique l u).Nodup := by
  unfold pushUnique
  by_cases hc : l.contains u = true
  · rwa [if_pos hc]
  · have hm : ¬ u ∈ l := fun hmem => hc (by simpa using hmem)
    rw [if_neg hc, List.nodup_append]
    refine ⟨h, List.nodup_singleton u, fun x hx hxu => ?_⟩
    rw [List.mem_singleton] at hxu
    exact hm (hxu ▸ hx)

theorem find?_user_isSome_iff (l : List PermissionEntry) (u : UserId) :
    (l.find? (fun p => p.user = u)).isSome = true ↔ u ∈ l.map PermissionEntry.user := by
  rw [List.find?_isSome]
  constructor
  · rintro ⟨p, hp, hpu⟩
    exact List.mem_map.mpr ⟨p, hp, by simpa using hpu⟩
  · intro h
    obtain ⟨p, hp, hpu⟩ := List.mem_map.mp h
    exact ⟨p, hp, by simpa using hpu⟩

theorem updateFirst_users (l : List PermissionEntry) (u : UserId) (L : PermLevel)
    (g : UserId) (now : Nat) :
    (updateFirst l u L g now).map PermissionEntry.user = l.map PermissionEntry.user := by
  induction l with
  | nil => rfl
  | cons p rest ih =>
    unfold updateFirst
    by_cases h : p.user = u
    · rw [if_pos h]
      simp
    · rw [if_neg h]
      simp [ih]

theorem upsert_users_mem (l : List PermissionEntry) (u u' : UserId) (L : PermLevel)
    (g : UserId) (now : Nat) :
    u' ∈ (upsertPermission l u L g now).map PermissionEntry.user ↔
      u' ∈ l.map PermissionEntry.user ∨ u' = u := by
  unfold upsertPermission
  by_cases h : (l.find? (fun p => p.user = u)).isSome = true
  · rw [if_pos h, updateFirst_users]
    constructor
    · exact Or.inl
    · rintro (h' | rfl)
      · exact h'
      · exact (find?_user_isSome_iff l u').mp h
  · rw [if_neg h]
    simp

theorem upsert_users_nodup (l : List PermissionEntry) (u : UserId) (L : PermLevel)
    (g : UserId) (now : Nat) (h : (l.map PermissionEntry.user).Nodup) :
    ((upsertPermission l u L g now).map PermissionEntry.user).Nodup := by
  unfold upsertPermission
  by_cases hf : (l.find? (fun p => p.user = u)).isSome = true
  · rwa [if_pos hf, updateFirst_users]
  · have hm : ¬ u ∈ l.map PermissionEntry.user := fun hc =>
      hf ((find?_user_isSome_iff l u).mpr hc)
    rw [if_neg hf, List.map_append, List.nodup_append]
    refine ⟨h, by simp, fun x hx hxu => ?_⟩
    simp only [List.map_cons, List.map_nil, List.mem_singleton] at hxu
    exact hm (hxu ▸ hx)

theorem updateFirst_level_of_user (l : List PermissionEntry) (u : UserId) (L : PermLevel)
    (g : UserId) (now : Nat) (hnd : (l.map PermissionEntry.user).Nodup) :
    ∀ p ∈ updateFirst l u L g now, p.user = u → p.permission = L := by
  induction l with
  | nil => intro p hp; cases hp
  | cons q rest ih =>
    simp only [List.map_cons, List.nodup_cons] at hnd
    unfold updateFirst
    by_cases h : q.user = u
    · rw [if_pos h]
      intro p hp hpu
      rcases List.mem_cons.mp hp with rfl | hp'
      · rfl
      · have hin : u ∈ rest.map PermissionEntry.user :=
          hpu ▸ List.mem_map_of_mem PermissionEntry.user hp'
        have h1 := hnd.1
        rw [h] at h1
        exact absurd hin h1
    · rw [if_neg h]
      intro p hp hpu
      rcases List.mem_cons.mp hp with rfl | hp'
      · exact absurd hpu h
      · exact ih hnd.2 p hp' hpu

theorem upsert_level_of_user (l : List PermissionEntry) (u : UserId) (L : PermLevel)
    (g : UserId) (now : Nat) (hnd : (l.map PermissionEntry.user).Nodup) :
    ∀ p ∈ upsertPermission l u L g now, p.user = u → p.permission = L := by
  unfold upsertPermission
  by_cases hf : (l.find? (fun p => p.user = u)).isSome = true
  · rw [if_pos hf]
    exact updateFirst_level_of_user l u L g now hnd
  · rw [if_neg hf]
    intro p hp hpu
    rcases List.mem_append.mp hp with hp' | hp'
    · exact absurd ((find?_user_isSome_iff l u).mpr
        (hpu ▸ List.mem_map_of_mem PermissionEntry.user hp')) hf
    · rw [List.mem_singleton.mp hp']

theorem updateFirst_length (l : List PermissionEntry) (u : UserId) (L : PermLevel)
    (g : UserId) (now : Nat) :
    (updateFirst l u L g now).length = l.length := by
  induction l with
  | nil => rfl
  | cons q rest ih =>
    unfold updateFirst
    by_cases h : q.user = u
    · rw [if_pos h]
      simp
    · rw [if_neg h]
      simp [ih]

theorem upsert_length_of_mem (l : List PermissionEntry) (u : UserId) (L : PermLevel)
    (g : UserId) (now : Nat) (h : u ∈ l.map PermissionEntry.user) :
    (upsertPermission l u L g now).length = l.length := by
  unfold upsertPermission
  rw [if_pos ((find?_user_isSome_iff l u).mpr h)]
  exact updateFirst_length l u L g now

theorem filter_user_length_one (l : List PermissionEntry) (u : UserId)
    (hnd : (l.map PermissionEntry.user).Nodup) (hm : u ∈ l.map PermissionEntry.user) :
    (l.filter (fun p => p.user = u)).length = 1 := by
  induction l with
  | nil => cases hm
  | cons q rest ih =>
    simp only [List.map_cons, List.nodup_cons] at hnd
    by_cases h : q.user = u
    · rw [List.filter_cons_of_pos (by simpa using h)]
      have hnotin : ¬ u ∈ rest.map PermissionEntry.user := fun hc => hnd.1 (by rwa [h])
      have hempty : rest.filter (fun p => p.user = u) = [] := by
        rw [List.filter_eq_nil_iff]
        intro p hp
        simp only [decide_eq_true_eq]
        intro hpu
        exact hnotin (hpu ▸ List.mem_map_of_mem PermissionEntry.user hp)
      rw [hempty]
      rfl
    · rw [List.filter_cons_of_neg (by simpa using h)]
      have hm' : u ∈ rest.map PermissionEntry.user := by
        rcases List.mem_cons.mp hm with h' | h'
        · exact absurd h'.symm h
        · exact h'
      exact ih hnd.2 hm'

theorem pushMention_users_mem (l : List MentionEntry) (u u' : UserId) (now : Nat) :
    u' ∈ (pushMention l u now).map MentionEntry.user ↔
      u' ∈ l.map MentionEntry.user ∨ u' = u := by
  unfold pushMention
  by_cases h : (l.find? (fun m => m.user = u)).isSome = true
  · rw [if_pos h]
    constructor
    · exact Or.inl
    · rintro (h' | rfl)
      · exact h'
      · obtain ⟨m, hm, hmu⟩ := List.find?_isSome.mp h
        exact List.mem_map.mpr ⟨m, hm, by simpa using hmu⟩
  · rw [if_neg h]
    simp

theorem pushMention_users_nodup (l : List MentionEntry) (u : UserId) (now : Nat)
    (h : (l.map MentionEntry.user).Nodup) :
    ((pushMention l u now).map MentionEntry.user).Nodup := by
  unfold pushMention
  by_cases hf : (l.find? (fun m => m.user = u)).isSome = true
  · rwa [if_pos hf]
  · have hm : ¬ u ∈ l.map MentionEntry.user := by
      intro hc
      obtain ⟨m, hmem, hmu⟩ := List.mem_map.mp hc
      exact hf (List.find?_isSome.mpr ⟨m, hmem, by simpa using hmu⟩)
    rw [if_neg hf, List.map_append, List.nodup_append]
    refine ⟨h, by simp, fun x hx hxu => ?_⟩
    simp only [List.map_cons, List.map_nil, List.mem_singleton] at hxu
    exact hm (hxu ▸ hx)

/-! ### Fold-level lemmas -/

theorem pushUnique_foldl_mem (ms : List UserId) (l : List UserId) (x : UserId) :
    x ∈ ms.foldl pushUnique l ↔ x ∈ l ∨ x ∈ ms := by
  induction ms generalizing l with
  | nil => simp
  | cons u rest ih =>
    rw [List.foldl_cons, ih, pushUnique_mem]
    simp only [List.mem_cons]
    tauto

theorem pushUnique_foldl_nodup (ms : List UserId) (l : List UserId) (h : l.Nodup) :
    (ms.foldl pushUnique l).Nodup := by
  induction ms generalizing l with
  | nil => exact h
  | cons u rest ih => exact ih _ (pushUnique_nodup l u h)

theorem upsert_foldl_users_mem (ms : List UserId) (L : PermLevel) (g : UserId) (now : Nat)
    (l : List PermissionEntry) (x : UserId) :
    x ∈ (ms.foldl (fun acc u => upsertPermission acc u L g now) l).map PermissionEntry.user ↔
      x ∈ l.map PermissionEntry.user ∨ x ∈ ms := by
  induction ms generalizing l with
  | nil => simp
  | cons u rest ih =>
    rw [List.foldl_cons, ih, upsert_users_mem]
    simp only [List.mem_cons]
    tauto

theorem upsert_foldl_users_nodup (ms : List UserId) (L : PermLevel) (g : UserId) (now : Nat)
    (l : List PermissionEntry) (h : (l.map PermissionEntry.user).Nodup) :
    ((ms.foldl (fun acc u => upsertPermission acc u L g now) l).map PermissionEntry.user).Nodup := by
  induction ms generalizing l with
  | nil => exact h
  | cons u rest ih => exact ih _ (upsert_users_nodup l u L g now h)

theorem updateFirst_all_level (l : List PermissionEntry) (u : UserId) (L : PermLevel)
    (g : UserId) (now : Nat) (h : ∀ p ∈ l, p.permission = L) :
    ∀ p ∈ updateFirst l u L g now, p.permission = L := by
  induction l with
  | nil => intro p hp; cases hp
  | cons q rest ih =>
    unfold updateFirst
    by_cases hq : q.user = u
    · rw [if_pos hq]
      intro p hp
      rcases List.mem_cons.mp hp with rfl | hp'
      · rfl
      · exact h p (List.mem_cons_of_mem q hp')
    · rw [if_neg hq]
      intro p hp
      rcases List.mem_cons.mp hp with rfl | hp'
      · exact h _ (List.mem_cons_self _ _)
      · exact ih (fun r hr => h r (List.mem_cons_of_mem q hr)) p hp'

theorem upsert_all_level (l : List PermissionEntry) (u : UserId) (L : PermLevel)
    (g : UserId) (now : Nat) (h : ∀ p ∈ l, p.permission = L) :
    ∀ p ∈ upsertPermission l u L g now, p.permission = L := by
  unfold upsertPermission
  by_cases hf : (l.find? (fun p => p.user = u)).isSome = true
  · rw [if_pos hf]
    exact updateFirst_all_level l u L g now h
  · rw [if_neg hf]
    intro p hp
    rcases List.mem_append.mp hp with hp' | hp'
    · exact h p hp'
    · rw [List.mem_singleton.mp hp']

theorem upsert_foldl_all_level (ms : List UserId) (L : PermLevel) (g : UserId) (now : Nat)
    (l : List PermissionEntry) (h : ∀ p ∈ l, p.permission = L) :
    ∀ p ∈ ms.foldl (fun acc u => upsertPermission acc u L g now) l, p.permission = L := by
  induction ms generalizing l with
  | nil => exact h
  | cons u rest ih => exact ih _ (upsert_all_level l u L g now h)

theorem pushMention_foldl_users_mem (ms : List UserId) (now : Nat) (l : List MentionEntry)
    (x : UserId) :
    x ∈ (ms.foldl (fun acc u => pushMention acc u now) l).map MentionEntry.user ↔
      x ∈ l.map MentionEntry.user ∨ x ∈ ms := by
  induction ms generalizing l with
  | nil => simp
  | cons u rest ih =>
    rw [List.foldl_cons, ih, pushMention_users_mem]
    simp only [List.mem_cons]
    tauto

theorem pushMention_foldl_users_nodup (ms : List UserId) (now : Nat) (l : List MentionEntry)
    (h : (l.map MentionEntry.user).Nodup) :
    ((ms.foldl (fun acc u => pushMention acc u now) l).map MentionEntry.user).Nodup := by
  induction ms generalizing l with
  | nil => exact h
  | cons u rest ih => exact ih _ (pushMention_users_nodup l u now h)

/-! ### Invariant preservation at the document level -/

theorem addCollaborator_invariant (doc : Document) (u : UserId) (L : PermLevel)
    (g : UserId) (now : Nat) (h : collabInvariant doc) :
    collabInvariant (addCollaborator doc u L g now) := by
  obtain ⟨h1, h2, h3, h4⟩ := h
  refine ⟨?_, ?_, ?_, ?_⟩
  · intro x hx
    rw [show (addCollaborator doc u L g now).collaborators
        = pushUnique doc.collaborators u from rfl, pushUnique_mem] at hx
    show x ∈ (upsertPermission doc.permissions u L g now).map PermissionEntry.user
    rw [upsert_users_mem]
    rcases hx with hx | rfl
    · exact Or.inl (h1 x hx)
    · exact Or.inr rfl
  · intro x hx
    rw [show permUsers (addCollaborator doc u L g now)
        = (upsertPermission doc.permissions u L g now).map PermissionEntry.user from rfl,
      upsert_users_mem] at hx
    show x ∈ pushUnique doc.collaborators u
    rw [pushUnique_mem]
    rcases hx with hx | rfl
    · exact Or.inl (h2 x hx)
    · exact Or.inr rfl
  · exact pushUnique_nodup doc.collaborators u h3
  · exact upsert_users_nodup doc.permissions u L g now h4

theorem removeCollaborator_invariant (doc : Document) (u : UserId)
    (h : collabInvariant doc) : collabInvariant (removeCollaborator doc u) := by
  obtain ⟨h1, h2, h3, h4⟩ := h
  refine ⟨?_, ?_, ?_, ?_⟩
  · intro x hx
    rw [show (removeCollaborator doc u).collaborators
        = doc.collaborators.filter (fun c => ¬ c = u) from rfl, List.mem_filter] at hx
    obtain ⟨hxc, hxu⟩ := hx
    show x ∈ (doc.permissions.filter (fun p => ¬ p.user = u)).map PermissionEntry.user
    obtain ⟨p, hp, rfl⟩ := List.mem_map.mp (h1 x hxc)
    exact List.mem_map_of_mem _ (List.mem_filter.mpr ⟨hp, hxu⟩)
  · intro x hx
    rw [show permUsers (removeCollaborator doc u)
        = (doc.permissions.filter (fun p => ¬ p.user = u)).map PermissionEntry.user
        from rfl] at hx
    obtain ⟨p, hp, rfl⟩ := List.mem_map.mp hx
    obtain ⟨hpl, hpu⟩ := List.mem_filter.mp hp
    show p.user ∈ doc.collaborators.filter (fun c => ¬ c = u)
    exact List.mem_filter.mpr ⟨h2 p.user (List.mem_map_of_mem _ hpl), hpu⟩
  · exact h3.filter _
  · exact List.Nodup.sublist ((doc.permissions.filter_sublist).map _) h4

theorem addMention_invariant (doc : Document) (u : UserId) (now : Nat)
    (h : collabInvariant doc) : collabInvariant (addMention doc u now) := h

theorem mentionStep_foldl_invariant (ms : List UserId) (actor : UserId) (now : Nat)
    (doc : Document) (h : collabInvariant doc) :
    collabInvariant (ms.foldl (mentionStep actor now) doc) := by
  induction ms generalizing doc with
  | nil => exact h
  | cons u rest ih =>
    exact ih _ (addCollaborator_invariant (addMention doc u now) u PermLevel.view actor now h)

theorem addMention_foldl_invariant (ms : List UserId) (now : Nat) (doc : Document)
    (h : collabInvariant doc) :
    collabInvariant (ms.foldl (fun d u => addMention d u now) doc) := by
  induction ms generalizing doc with
  | nil => exact h
  | cons u rest ih => exact ih _ h

theorem addCollaborator_foldl_invariant (ms : List UserId) (L : PermLevel) (actor : UserId)
    (now : Nat) (doc : Document) (h : collabInvariant doc) :
    collabInvariant (ms.foldl (fun d u => addCollaborator d u L actor now) doc) := by
  induction ms generalizing doc with
  | nil => exact h
  | cons u rest ih => exact ih _ (addCollaborator_invariant doc u L actor now h)

theorem preSave_invariant (doc : Document) (b : Bool) (now : Nat)
    (h : collabInvariant doc) : collabInvariant (preSave doc b now) := by
  cases b
  · exact h
  · exact h

theorem updateBody_invariant (doc : Document) (actor : UserId)
    (titleOpt contentOpt : Option String) (privacyOpt : Option Privacy)
    (statusOpt : Option DocStatus) (tagsOpt : Option (List String))
    (ms : List UserId) (now : Nat) (h : collabInvariant doc) :
    collabInvariant (updateBody doc actor titleOpt contentOpt privacyOpt statusOpt tagsOpt
      ms now) := by
  have h1 : collabInvariant (updateMentionStage doc actor contentOpt ms now) := by
    unfold updateMentionStage
    cases contentOpt
    · exact h
    · exact mentionStep_foldl_invariant ms actor now doc h
  exact preSave_invariant _ _ now h1

theorem createDocument_invariant (actor : UserId) (title content : String)
    (privacy : Privacy) (status : DocStatus) (tags : List String) (ms : List UserId)
    (now : Nat) :
    collabInvariant (createDocument actor title content privacy status tags ms now) := by
  refine preSave_invariant _ _ _ ?_
  refine addCollaborator_foldl_invariant _ _ _ _ _ ?_
  refine addMention_foldl_invariant _ _ _ ?_
  refine preSave_invariant _ _ _ ?_
  exact ⟨fun u hu => absurd hu (List.not_mem_nil u),
    fun u hu => absurd hu (List.not_mem_nil u), List.nodup_nil, List.nodup_nil⟩

/-- C5: after every document mutation — create with mentions, update with
mentions, grant via `addCollaborator`, revoke via `removeCollaborator` — the
`collaborators` list and the user ids of the `permissions` entries are equal
as sets, each user id occurring at most once in each (created documents
satisfy the invariant outright, and every mutation preserves it). -/
theorem collaborators_mirror_permissions :
    (∀ (actor : UserId) (title content : String) (privacy : Privacy) (status : DocStatus)
        (tags : List String) (ms : List UserId) (now : Nat),
      collabInvariant (createDocument actor title content privacy status tags ms now)) ∧
    (∀ (doc : Document) (actor : UserId) (titleOpt contentOpt : Option String)
        (privacyOpt : Option Privacy) (statusOpt : Option DocStatus)
        (tagsOpt : Option (List String)) (ms : List UserId) (now : Nat) (d' : Document),
      collabInvariant doc →
      updateDocument (some doc) actor titleOpt contentOpt privacyOpt statusOpt tagsOpt ms now
          = .ok d' → collabInvariant d') ∧
    (∀ (doc : Document) (u : UserId) (L : PermLevel) (g : UserId) (now : Nat),
      collabInvariant doc → collabInvariant (addCollaborator doc u L g now)) ∧
    (∀ (doc : Document) (u : UserId),
      collabInvariant doc → collabInvariant (removeCollaborator doc u)) := by
  refine ⟨createDocument_invariant, ?_, addCollaborator_invariant, removeCollaborator_invariant⟩
  intro doc actor titleOpt contentOpt privacyOpt statusOpt tagsOpt ms now d' hinv h
  by_cases h1 : doc.isDeleted
  · simp [updateDocument, h1] at h
  · by_cases h2 : hasPermission doc actor PermLevel.edit
    · simp [updateDocument, h1, h2] at h
      rw [← h]
      exact updateBody_invariant doc actor titleOpt contentOpt privacyOpt statusOpt tagsOpt
        ms now hinv
    · simp [updateDocument, h1, h2] at h

/-- Witness for C5 at concrete mutations: a creation with duplicated
mentions, an update, a grant and a revoke. -/
theorem collaborators_mirror_permissions_witness :
    collabInvariant (createDocument 0 "T" "hi" Privacy.priv DocStatus.draft [] [1, 2, 1] 3) ∧
    collabInvariant ({ sampleEditDoc with
      status := DocStatus.published, lastModifiedBy := some 1 } : Document) ∧
    collabInvariant (addCollaborator sampleDoc 2 PermLevel.edit 0 4) ∧
    collabInvariant (removeCollaborator sampleDoc 1) :=
  ⟨collaborators_mirror_permissions.1 0 "T" "hi" Privacy.priv DocStatus.draft [] [1, 2, 1] 3,
   collaborators_mirror_permissions.2.1 sampleEditDoc 1 none none none
     (some DocStatus.published) none [] 9 _ (by decide) rfl,
   collaborators_mirror_permissions.2.2.1 sampleDoc 2 PermLevel.edit 0 4 (by decide),
   collaborators_mirror_permissions.2.2.2 sampleDoc 1 (by decide)⟩

/-- C6: creating a document whose resolved mentions contain users `a` and `b`
(possibly repeatedly — the route's scan may push the same id several times)
puts both into `collaborators`, gives each a `view`-level permission entry,
and records each in `mentions` exactly once. -/
theorem mentionAutoShare (actor : UserId) (title content : String) (privacy : Privacy)
    (status : DocStatus) (tags : List String) (ms : List UserId) (now : Nat)
    (a b : UserId) (ha : a ∈ ms) (hb : b ∈ ms) (_hab : ¬ a = b) :
    a ∈ (createDocument actor title content privacy status tags ms now).collaborators ∧
    b ∈ (createDocument actor title content privacy status tags ms now).collaborators ∧
    (∃ p ∈ (createDocument actor title content privacy status tags ms now).permissions,
      p.user = a ∧ p.permission = PermLevel.view) ∧
    (∃ p ∈ (createDocument actor title content privacy status tags ms now).permissions,
      p.user = b ∧ p.permission = PermLevel.view) ∧
    ((createDocument actor title content privacy status tags ms now).mentions.map
      MentionEntry.user).count a = 1 ∧
    ((createDocument actor title content privacy status tags ms now).mentions.map
      MentionEntry.user).count b = 1 := by
  rw [createDocument_eq]
  have hcol : ∀ x ∈ ms, x ∈ ms.foldl pushUnique [] := fun x hx =>
    (pushUnique_foldl_mem ms [] x).mpr (Or.inr hx)
  have hview : ∀ p ∈ ms.foldl (fun acc u => upsertPermission acc u PermLevel.view actor now) [],
      p.permission = PermLevel.view :=
    upsert_foldl_all_level ms PermLevel.view actor now [] (fun p hp => absurd hp
      (List.not_mem_nil p))
  have hpermx : ∀ x ∈ ms, ∃ p ∈ ms.foldl
      (fun acc u => upsertPermission acc u PermLevel.view actor now) [],
      p.user = x ∧ p.permission = PermLevel.view := by
    intro x hx
    have : x ∈ (ms.foldl (fun acc u => upsertPermission acc u PermLevel.view actor now)
        []).map PermissionEntry.user :=
      (upsert_foldl_users_mem ms PermLevel.view actor now [] x).mpr (Or.inr hx)
    obtain ⟨p, hp, rfl⟩ := List.mem_map.mp this
    exact ⟨p, hp, rfl, hview p hp⟩
  have hnd : ((ms.foldl (fun acc u => pushMention acc u now) []).map MentionEntry.user).Nodup :=
    pushMention_foldl_users_nodup ms now [] List.nodup_nil
  have hcount : ∀ x ∈ ms,
      ((ms.foldl (fun acc u => pushMention acc u now) []).map MentionEntry.user).count x = 1 := by
    intro x hx
    exact List.count_eq_one_of_mem hnd
      ((pushMention_foldl_users_mem ms now [] x).mpr (Or.inr hx))
  exact ⟨hcol a ha, hcol b hb, hpermx a ha, hpermx b hb, hcount a ha, hcount b hb⟩

/-- Witness for C6: creation whose resolved mention list is `[1, 2, 1]` (the
token for user 1 occurred twice in the content). -/
theorem mentionAutoShare_witness :
    1 ∈ (createDocument 0 "T" "hi" Privacy.priv DocStatus.draft [] [1, 2, 1] 3).collaborators ∧
    2 ∈ (createDocument 0 "T" "hi" Privacy.priv DocStatus.draft [] [1, 2, 1] 3).collaborators ∧
    (∃ p ∈ (createDocument 0 "T" "hi" Privacy.priv DocStatus.draft [] [1, 2, 1] 3).permissions,
      p.user = 1 ∧ p.permission = PermLevel.view) ∧
    (∃ p ∈ (createDocument 0 "T" "hi" Privacy.priv DocStatus.draft [] [1, 2, 1] 3).permissions,
      p.user = 2 ∧ p.permission = PermLevel.view) ∧
    ((createDocument 0 "T" "hi" Privacy.priv DocStatus.draft [] [1, 2, 1] 3).mentions.map
      MentionEntry.user).count 1 = 1 ∧
    ((createDocument 0 "T" "hi" Privacy.priv DocStatus.draft [] [1, 2, 1] 3).mentions.map
      MentionEntry.user).count 2 = 1 :=
  mentionAutoShare 0 "T" "hi" Privacy.priv DocStatus.draft [] [1, 2, 1] 3 1 2
    (by decide) (by decide) (by decide)

/-- C7: `addCollaborator` is an idempotent upsert.  Granting the same user
and level twice leaves exactly one permission entry for the user, at that
level, and `collaborators` contains the user exactly once; the second grant
rewrites the entry in place, appending nothing. -/
theorem grant_idempotent (doc : Document) (u : UserId) (L : PermLevel) (g : UserId)
    (n1 n2 : Nat) (h : collabInvariant doc) :
    (((addCollaborator (addCollaborator doc u L g n1) u L g n2).permissions.filter
        (fun p => p.user = u)).length = 1) ∧
    (∀ p ∈ (addCollaborator (addCollaborator doc u L g n1) u L g n2).permissions,
      p.user = u → p.permission = L) ∧
    ((addCollaborator (addCollaborator doc u L g n1) u L g n2).collaborators.count u = 1) ∧
    ((addCollaborator (addCollaborator doc u L g n1) u L g n2).permissions.length =
      (addCollaborator doc u L g n1).permissions.length) := by
  have inv1 := addCollaborator_invariant doc u L g n1 h
  have inv2 := addCollaborator_invariant (addCollaborator doc u L g n1) u L g n2 inv1
  have hmem1 : u ∈ (addCollaborator doc u L g n1).permissions.map PermissionEntry.user := by
    show u ∈ (upsertPermission doc.permissions u L g n1).map PermissionEntry.user
    exact (upsert_users_mem doc.permissions u u L g n1).mpr (Or.inr rfl)
  have hmem2 : u ∈ (addCollaborator (addCollaborator doc u L g n1) u L g n2).permissions.map
      PermissionEntry.user := by
    show u ∈ (upsertPermission (addCollaborator doc u L g n1).permissions u L g n2).map
      PermissionEntry.user
    exact (upsert_users_mem _ u u L g n2).mpr (Or.inr rfl)
  refine ⟨?_, ?_, ?_, ?_⟩
  · exact filter_user_length_one _ u inv2.2.2.2 hmem2
  · show ∀ p ∈ upsertPermission (addCollaborator doc u L g n1).permissions u L g n2,
      p.user = u → p.permission = L
    exact upsert_level_of_user _ u L g n2 inv1.2.2.2
  · refine List.count_eq_one_of_mem inv2.2.2.1 ?_
    show u ∈ pushUnique (addCollaborator doc u L g n1).collaborators u
    exact (pushUnique_mem _ u u).mpr (Or.inr rfl)
  · show (upsertPermission (addCollaborator doc u L g n1).permissions u L g n2).length
      = (addCollaborator doc u L g n1).permissions.length
    exact upsert_length_of_mem _ u L g n2 hmem1

/-- Witness for C7: granting user 2 `edit` twice on `sampleDoc`. -/
theorem grant_idempotent_witness :
    (((addCollaborator (addCollaborator sampleDoc 2 PermLevel.edit 0 4) 2 PermLevel.edit 0 5).permissions.filter (fun p => p.user = 2)).length = 1) ∧
    (∀ p ∈ (addCollaborator (addCollaborator sampleDoc 2 PermLevel.edit 0 4) 2 PermLevel.edit 0 5).permissions, p.user = 2 → p.permission = PermLevel.edit) ∧
    ((addCollaborator (addCollaborator sampleDoc 2 PermLevel.edit 0 4) 2 PermLevel.edit 0 5).collaborators.count 2 = 1) ∧
    ((addCollaborator (addCollaborator sampleDoc 2 PermLevel.edit 0 4) 2 PermLevel.edit 0 5).permissions.length =
      (addCollaborator sampleDoc 2 PermLevel.edit 0 4).permissions.length) :=
  grant_idempotent sampleDoc 2 PermLevel.edit 0 4 5 (by decide)

end DocForge
